import Mathlib

/-!
Verification of the md2note Markdown-to-notes pipeline.

The Python sources are embedded shallowly: Python strings are `List Char`,
Python's `str.strip`/`split('\n')`/`startswith`/`replace` are modelled as
executable functions below, and each method under scrutiny
(`MarkdownMetadataExtractor.get_title`, `.extract`, `.get_content`,
`MD2Note.process_file`, `MD2Note.run`, `AppleNotesCreator.create_note`,
`AppleNotesExporter._remove_title_header`, `FileMover.move_file`) is
translated into a Lean function over these models.  External collaborators
(the `frontmatter` and `markdown` libraries, the filesystem, the AppleScript
runtime) are either abstracted as parameters or, where a claim needs their
behaviour, modelled from the specification and marked as such.
-/

namespace Md2Note

/-! ## Python string primitives -/

/-- Python's whitespace predicate used by `str.strip()`:
space, tab, newline, carriage return, vertical tab, form feed. -/
def pyIsSpace (c : Char) : Bool :=
  c == ' ' || c == '\t' || c == '\n' || c == '\r' ||
  c == Char.ofNat 11 || c == Char.ofNat 12

/-- Python `str.lstrip()`. -/
def lstrip (l : List Char) : List Char := l.dropWhile pyIsSpace

/-- Python `str.rstrip()`. -/
def rstrip (l : List Char) : List Char := (l.reverse.dropWhile pyIsSpace).reverse

/-- Python `str.strip()`. -/
def pstrip (l : List Char) : List Char := rstrip (lstrip l)

/-- Python `str.split('\n')`: splits at every newline; the empty string
yields `[""]`. -/
def splitNl : List Char → List (List Char)
  | [] => [[]]
  | c :: cs =>
    match splitNl cs with
    | [] => [[]]
    | l :: ls => if c = '\n' then [] :: l :: ls else (c :: l) :: ls

/-- Python `'\n'.join(lines)`. -/
def joinNl (ls : List (List Char)) : List Char := List.intercalate ['\n'] ls

/-- The two-character marker `"# "` of a level-1 Markdown heading. -/
def hashSpace : List Char := ['#', ' ']

/-! ## `MarkdownMetadataExtractor.get_title` (src/src/metadata.py, lines 68-88)

```python
content = self.get_content()
lines = content.strip().split('\n')
for line in lines:
    line = line.strip()
    if line.startswith('# '):
        return line[2:].strip()
    elif line and not line.startswith('#'):
        # Stop at first non-header content
        break
# Fall back to filename without extension
return self.file_path.stem
```
-/

/-- The `for` loop of `get_title`: `stem` is the fallback returned both on
`break` and when the loop completes. -/
def title_scan (stem : List Char) : List (List Char) → List Char
  | [] => stem
  | line :: rest =>
    let l := pstrip line
    if hashSpace.isPrefixOf l then pstrip (l.drop 2)
    else if !l.isEmpty && !(['#'].isPrefixOf l) then stem
    else title_scan stem rest

/-- Method `get_title`, as a function of the body text (`get_content()`'s result)
and the path's stem. -/
def get_title (content stem : List Char) : List Char :=
  title_scan stem (splitNl (pstrip content))

/-- The title computation exactly as the specification sentence words it:
scan line-by-line skipping leading blank lines; the *first non-blank line*
decides the outcome — its trailing text if it is a `"# "` heading, the stem
otherwise. -/
def spec_title_claim (content stem : List Char) : List Char :=
  match (splitNl content).find? (fun l => !(pstrip l).isEmpty) with
  | none => stem
  | some l =>
    if hashSpace.isPrefixOf (pstrip l) then pstrip ((pstrip l).drop 2) else stem

/-- The title computation as the code actually behaves: scanning skips blank
lines *and* lines that start with `'#'` without being level-1 headings; the
first line that is either a `"# "` heading or non-blank not starting with
`'#'` decides the outcome. -/
def spec_title_amended (content stem : List Char) : List Char :=
  match (splitNl (pstrip content)).find?
      (fun l => hashSpace.isPrefixOf (pstrip l) ||
        (!(pstrip l).isEmpty && !(['#'].isPrefixOf (pstrip l)))) with
  | none => stem
  | some l =>
    if hashSpace.isPrefixOf (pstrip l) then pstrip ((pstrip l).drop 2) else stem

/-! ## Python dictionaries (`dict.update`, metadata mappings)

Metadata is a Python `dict` with string keys and heterogeneous values; we
model it as an association list with unique-key update semantics.  `dictInsert`
is one assignment `d[k] = v` (an existing key keeps its position and gets the
new value, a fresh key is appended); `dictUpdate` is `d.update(other)`. -/

def dictInsert : List (String × α) → String → α → List (String × α)
  | [], k, v => [(k, v)]
  | p :: d, k, v => if p.1 == k then (k, v) :: d else p :: dictInsert d k v

def dictUpdate (d other : List (String × α)) : List (String × α) :=
  other.foldl (fun d p => dictInsert d p.1 p.2) d

/-! ## `MarkdownMetadataExtractor.extract` (src/src/metadata.py, lines 18-52)

`frontmatter.load` is an external library call; its outcome for the file at
hand is passed in as a value of type `Except Unit Post`, where `Post` pairs
the parsed front-matter mapping with the remaining content and `.error`
stands for a raised exception.  File properties come from `stat` and are
likewise passed in as the already-built mapping `props`. -/

/-- A `frontmatter.Post`: parsed metadata plus the post-front-matter content. -/
def Post (α : Type) := List (String × α) × List Char

/-- Helper `_extract_frontmatter` (lines 34-42): any exception is swallowed and an
empty metadata dict is treated like a missing one (`if post.metadata:`). -/
def extract_frontmatter (load : Except Unit (Post α)) : Option (List (String × α)) :=
  match load with
  | .error _ => none
  | .ok p => if p.1.isEmpty then none else some p.1

/-- Method `extract` (lines 18-32): file properties first, front matter merged on
top via `dict.update`.  Totality of this function is the embedding of
"never raises": the only fallible collaborator call is wrapped in the
catch-all of `_extract_frontmatter`. -/
def extract (props : List (String × α)) (load : Except Unit (Post α)) :
    List (String × α) :=
  match extract_frontmatter load with
  | some m => dictUpdate props m
  | none => props

/-! ## `MarkdownMetadataExtractor.get_content` (src/src/metadata.py, lines 54-66)

```python
if self._post is None:
    try:
        self._post = frontmatter.load(self.file_path)
    except Exception:
        with open(self.file_path, 'r', encoding='utf-8') as f:
            return f.read()
return self._post.content if self._post else ""
```

On a fresh instance (`self._post is None`) the result is the raw file text
when `frontmatter.load` raises, and the loaded post's content otherwise
(a `Post` object is always truthy in Python). -/

/-- Method `get_content` on a fresh extractor: `load` is the outcome of
`frontmatter.load` for this file, `raw` the file's raw decoded text. -/
def get_content (load : Except Unit (Post α)) (raw : List Char) : List Char :=
  match load with
  | .error _ => raw
  | .ok p => p.2

/-- Modelled from the spec: the front-matter block detection of the external
`frontmatter` library (not part of this repository).  Per the spec's
glossary, a front-matter block is "a delimited metadata block (bounded by
`---` lines) at the start of a Markdown file"; absence of an opening or
closing `---` line means no front matter.  Returns the block's inner text
and the remaining content. -/
def splitFrontBlock (text : List Char) : Option (List Char × List Char) :=
  match splitNl text with
  | [] => none
  | l₀ :: rest =>
    if l₀ = ['-', '-', '-'] then
      match rest.span (fun l => l != ['-', '-', '-']) with
      | (_, []) => none
      | (fmLines, _ :: after) => some (joinNl fmLines, joinNl after)
    else none

/-- Modelled from the spec: `frontmatter.load` of the external library,
composed from `splitFrontBlock` and an abstract YAML mapping parser
(`yaml`, whose `.error` is a raised parse exception).  Per the spec, a file
without a front-matter block loads with empty metadata and its full text as
content; a present block is parsed and removed from the content. -/
def fmLoad (yaml : List Char → Except Unit (List (String × α))) (text : List Char) :
    Except Unit (Post α) :=
  match splitFrontBlock text with
  | none => .ok ([], text)
  | some (fm, rest) =>
    match yaml fm with
    | .error e => .error e
    | .ok m => .ok (m, rest)

/-! ## Idempotence of the extractor's accessors (src/src/metadata.py, lines 12-88)

The only mutable state of a `MarkdownMetadataExtractor` instance is
`self._post` (`None` until a successful `frontmatter.load`).  For an
unchanged file, `frontmatter.load` is deterministic; its fixed outcome is
the parameter `L`.  Each accessor is modelled as a state transformer on
`Option (Post α)` returning its result and the new `self._post`. -/

/-- Method `get_content` as a state transformer on `self._post`. -/
def get_content_st (L : Except Unit (Post α)) (raw : List Char) :
    Option (Post α) → List Char × Option (Post α)
  | some p => (p.2, some p)
  | none =>
    match L with
    | .ok p => (p.2, some p)
    | .error _ => (raw, none)

/-- Method `extract` as a state transformer: `_extract_frontmatter` stores the post
in `self._post` whenever `frontmatter.load` succeeds (line 37), and leaves
the state alone when it raises. -/
def extract_st (L : Except Unit (Post α)) (props : List (String × α)) :
    Option (Post α) → List (String × α) × Option (Post α)
  | st =>
    match L with
    | .ok p => (if p.1.isEmpty then props else dictUpdate props p.1, some p)
    | .error _ => (props, st)

/-- Method `get_title` as a state transformer (it reads the body via
`get_content`). -/
def get_title_st (L : Except Unit (Post α)) (raw stem : List Char)
    (st : Option (Post α)) : List Char × Option (Post α) :=
  let r := get_content_st L raw st
  (get_title r.1 stem, r.2)

/-- The states `self._post` can reach on an unchanged file: still `None`, or
the post cached from a successful load. -/
def reach (L : Except Unit (Post α)) (st : Option (Post α)) : Prop :=
  st = none ∨ ∃ p, L = .ok p ∧ st = some p

/-! ## `MD2Note.process_file` and `MD2Note.run` (src/src/app.py, lines 84-140)

Each collaborator call a file's processing makes is modelled by an
`Except Unit _` value (`.error` = that call raised).  `process_file` is the
translation of the `try`/`except` body; alongside the returned boolean it
produces the trace of pipeline events, so that ordering and
conditional-archival facts are statable.  Raised/returned outcomes of the
export and archival calls are recorded as `Option Bool` (`none` = the call
raised, `some b` = it returned `b`). -/

/-- The per-file collaborator behaviours seen by `process_file`. -/
structure FileOps (α : Type) where
  construct : Except Unit Unit
  content : Except Unit (List Char)
  metadata : Except Unit (List (String × α))
  title : Except Unit (List Char)
  exportCall : List Char → List Char → List (String × α) → Except Unit Bool
  move : Except Unit Bool

/-- Pipeline events observable during one file's processing. -/
inductive Ev
  | extracted
  | exported (r : Option Bool)
  | archived (r : Option Bool)
  deriving DecidableEq, Repr

/-- Method `process_file` (lines 84-100): extraction, export, and — only inside the
export-success branch — the archival move, whose return value is ignored;
any raise anywhere in the body is caught and turned into `false`. -/
def process_file (ops : FileOps α) : Bool × List Ev :=
  match ops.construct with
  | .error _ => (false, [])
  | .ok _ =>
    match ops.content with
    | .error _ => (false, [])
    | .ok c =>
      match ops.metadata with
      | .error _ => (false, [])
      | .ok m =>
        match ops.title with
        | .error _ => (false, [])
        | .ok t =>
          match ops.exportCall t c m with
          | .error _ => (false, [.extracted, .exported none])
          | .ok false => (false, [.extracted, .exported (some false)])
          | .ok true =>
            match ops.move with
            | .error _ =>
              (false, [.extracted, .exported (some true), .archived none])
            | .ok b =>
              (true, [.extracted, .exported (some true), .archived (some b)])

/-- One iteration of the processing loop of `run` (lines 129-133). -/
def run_step (acc : Nat × Nat × List (List Ev)) (ops : FileOps α) :
    Nat × Nat × List (List Ev) :=
  let r := process_file ops
  if r.1 then (acc.1 + 1, acc.2.1, acc.2.2 ++ [r.2])
  else (acc.1, acc.2.1 + 1, acc.2.2 ++ [r.2])

/-- The processing loop of `run` (lines 126-133): per-file success/failure
tallies plus the per-file event traces. -/
def run_files (files : List (FileOps α)) : Nat × Nat × List (List Ev) :=
  files.foldl run_step (0, 0, [])

/-- Method `run` (lines 102-140): configuration validation first (a raise inside
`validate_configuration` or a `false` result both end the run with a raised
error, re-raised by the outer handler); then scanning; an empty scan ends
the run normally.  The boolean records whether the scanner was invoked. -/
def run (validate : Except Unit Bool) (scan : Except Unit (List (FileOps α))) :
    Except Unit (Nat × Nat × List (List Ev)) × Bool :=
  match validate with
  | .error e => (.error e, false)
  | .ok false => (.error (), false)
  | .ok true =>
    match scan with
    | .error e => (.error e, true)
    | .ok files =>
      if files.isEmpty then (.ok (0, 0, []), true)
      else (.ok (run_files files), true)

/-! ## `FileMover.move_file` (src/src/file_mover.py, lines 37-67)

`move_file` returns `False` — it never raises, its whole body being inside a
catch-all — when the source path no longer exists, when the path cannot be
relativized to the source root, or when the filesystem move fails; `True`
otherwise.  The three filesystem outcomes are the booleans below. -/

def move_file (srcExists underRoot osMoveOk : Bool) : Bool :=
  if !srcExists then false
  else if !underRoot then false
  else osMoveOk

/-! ## `AppleNotesCreator.create_note` (src/src/applescript.py, lines 43-106)

`_convert_markdown_to_html` calls the external `markdown` library and is
abstracted as the parameter `mdToHtml`; `_format_metadata` is pure
formatting whose output feeds the same escaping path as the body, so it is
abstracted as `fmtMeta` and the escaping theorems hold for every
instantiation of both. -/

/-- Python `str.replace(old, new)` for a one-character needle. -/
def replaceChar (c : Char) (r : List Char) : List Char → List Char
  | [] => []
  | x :: xs => (if x = c then r else [x]) ++ replaceChar c r xs

/-- Helper `_escape_for_applescript` (applescript.py lines 203-217, identical in
apple_notes_exporter.py lines 236-250): first `"` ↦ `\"`, then `\n` ↦ the
two characters `\` `n`. -/
def escape_for_applescript (t : List Char) : List Char :=
  replaceChar '\n' ['\\', 'n'] (replaceChar '"' ['\\', '"'] t)

/-- Character-by-character escaping as the claim words it. -/
def escChar (c : Char) : List Char :=
  if c = '"' then ['\\', '"'] else if c = '\n' then ['\\', 'n'] else [c]

/-- The `content_parts` list joined with `"<br><br>"` (lines 59-73): formatted
metadata first when a non-empty mapping is given, then the HTML body. -/
def build_full_content (mdToHtml : List Char → List Char)
    (fmtMeta : List (String × α) → List Char)
    (content : List Char) (metadata : Option (List (String × α))) : List Char :=
  let parts : List (List Char) :=
    match metadata with
    | some md =>
      if md.isEmpty then [mdToHtml content]
      else [mdToHtml (fmtMeta md), mdToHtml content]
    | none => [mdToHtml content]
  List.intercalate ("<br><br>".toList) parts

/-- Line 80, `target_folder = folder if folder else "Notes"`: `None` and
the empty string both fall back to the default `"Notes"` folder. -/
def target_folder (folder : Option (List Char)) : List Char :=
  match folder with
  | some f => if f.isEmpty then "Notes".toList else f
  | none => "Notes".toList

/-- The literal AppleScript segments of `create_note`'s f-string
(lines 83-94), between the interpolation points. -/
def scriptSeg1 : List Char :=
  "\n        tell application \"Notes\"\n            tell account \"iCloud\"\n                try\n                    set targetFolder to folder \"".toList

def scriptSeg2 : List Char :=
  "\"\n                on error\n                    set targetFolder to make new folder with properties \x7bname:\"".toList

def scriptSeg3 : List Char :=
  "\"\x7d\n                end try\n                set newNote to make new note at targetFolder with properties \x7bname:\"".toList

def scriptSeg4 : List Char := "\", body:\"".toList

def scriptSeg5 : List Char :=
  "\"\x7d\n            end tell\n        end tell\n        ".toList

/-- Script construction of `create_note` (lines 56-94): the full content is
built, then title, content and target folder are escaped and interpolated
into the fixed script template. -/
def create_note_script (mdToHtml : List Char → List Char)
    (fmtMeta : List (String × α) → List Char) (title content : List Char)
    (metadata : Option (List (String × α))) (folder : Option (List Char)) :
    List Char :=
  let fullContent := build_full_content mdToHtml fmtMeta content metadata
  let t := escape_for_applescript title
  let fc := escape_for_applescript fullContent
  let tf := escape_for_applescript (target_folder folder)
  scriptSeg1 ++ tf ++ scriptSeg2 ++ tf ++ scriptSeg3 ++ t ++ scriptSeg4 ++
    fc ++ scriptSeg5

/-- Modelled from the spec: the Notes destination's execution of the
generated `try folder f / on error make new folder f` script (the Notes
application is external to this repository) — an existing folder of that
name is reused, a missing one is created, and the note is placed in it.
The state is the list of existing folder names. -/
def create_note_effect (folders : List (List Char))
    (folder : Option (List Char)) : List (List Char) × List Char :=
  let tf := target_folder folder
  if tf ∈ folders then (folders, tf) else (folders ++ [tf], tf)

/-! ## `AppleNotesExporter._remove_title_header` (src/src/apple_notes_exporter.py, lines 125-161)

```python
if not content or not title:
    return content
lines = content.strip().split('\n')
...
for i, line in enumerate(lines):
    line = line.strip()
    if not line:
        continue
    if line.startswith('# '):
        header_title = line[2:].strip()
        if header_title == title:
            remaining_lines = lines[i+1:]
            while remaining_lines and not remaining_lines[0].strip():
                remaining_lines.pop(0)
            return '\n'.join(remaining_lines)
    break
return content
```
-/

/-- Is this (raw) line a level-1 heading whose trimmed text equals the
title?  (The source strips the line before testing `startswith('# ')`.) -/
def is_title_heading (title l : List Char) : Bool :=
  hashSpace.isPrefixOf (pstrip l) && (pstrip ((pstrip l).drop 2) == title)

/-- The `for` loop of `_remove_title_header`: `none` models falling through
to `return content` (loop end or `break`); `some r` models the early
`return` with the joined remaining lines. -/
def rth_scan (title : List Char) : List (List Char) → Option (List Char)
  | [] => none
  | l :: ls =>
    if (pstrip l).isEmpty then rth_scan title ls
    else if is_title_heading title l then
      some (joinNl (ls.dropWhile (fun x => (pstrip x).isEmpty)))
    else none

/-- Method `_remove_title_header`. -/
def remove_title_header (content title : List Char) : List Char :=
  if content.isEmpty || title.isEmpty then content
  else
    match rth_scan title (splitNl (pstrip content)) with
    | some r => r
    | none => content

/-- The exclusion exactly as the claim words it: on the body's own lines,
keep leading blank lines, and if the first non-blank line is a level-1
heading matching the title, drop that line and the immediately following
blank lines, keeping everything else verbatim. -/
def excise_scan (title : List Char) : List (List Char) → Option (List (List Char))
  | [] => none
  | l :: ls =>
    if (pstrip l).isEmpty then (excise_scan title ls).map (fun r => l :: r)
    else if is_title_heading title l then
      some (ls.dropWhile (fun x => (pstrip x).isEmpty))
    else none

/-- The claim's rendering rule: heading line and immediately following blank
lines excluded from the body when the first visible line matches; the body
unchanged otherwise. -/
def spec_remove_title_claim (content title : List Char) : List Char :=
  match excise_scan title (splitNl content) with
  | some ls => joinNl ls
  | none => content

/-! ## Theorems -/

theorem title_scan_eq_find (stem : List Char) (ls : List (List Char)) :
    title_scan stem ls =
      match ls.find?
          (fun l => hashSpace.isPrefixOf (pstrip l) ||
            (!(pstrip l).isEmpty && !(['#'].isPrefixOf (pstrip l)))) with
      | none => stem
      | some l =>
        if hashSpace.isPrefixOf (pstrip l) then pstrip ((pstrip l).drop 2)
        else stem := by
  induction ls with
  | nil => simp [title_scan]
  | cons line rest ih =>
    by_cases h1 : hashSpace.isPrefixOf (pstrip line)
    · simp [title_scan, List.find?, h1]
    · by_cases h2 : (!(pstrip line).isEmpty && !(['#'].isPrefixOf (pstrip line))) = true
      · simp [title_scan, List.find?, h1, h2]
      · simp [title_scan, List.find?, h1, h2, ih]

/-- C1 counterexample: on the body `"## A\n# T"` the first non-blank line is
`"## A"` — not a level-1 heading — so the claim demands the stem fallback
`"headers"`; the code instead scans past it and returns `"T"` from the second
line. -/
theorem get_title_claim_counterexample :
    get_title ("## A\n# T".toList) ("headers".toList) = "T".toList ∧
    spec_title_claim ("## A\n# T".toList) ("headers".toList) = "headers".toList ∧
    get_title ("## A\n# T".toList) ("headers".toList) ≠
      spec_title_claim ("## A\n# T".toList) ("headers".toList) := by
  refine ⟨by decide, by decide, by decide⟩

/-- C1 (amended): `get_title` skips blank lines *and* lines starting with
`'#'` that are not `"# "` level-1 headings; the first line that is either a
level-1 heading or non-blank not starting with `'#'` decides the outcome
(heading ⇒ its trailing text trimmed, otherwise ⇒ the path's stem), and the
stem is also returned when no such line exists. -/
theorem get_title_eq_spec_amended (content stem : List Char) :
    get_title content stem = spec_title_amended content stem := by
  unfold get_title spec_title_amended
  exact title_scan_eq_find stem (splitNl (pstrip content))

theorem lookup_dictInsert_self (d : List (String × α)) (k : String) (v : α) :
    (dictInsert d k v).lookup k = some v := by
  induction d with
  | nil => simp [dictInsert, List.lookup]
  | cons p d ih =>
    by_cases h : p.1 = k
    · simp [dictInsert, h, List.lookup]
    · have hb : (p.1 == k) = false := beq_eq_false_iff_ne.mpr h
      have hb' : (k == p.1) = false := beq_eq_false_iff_ne.mpr (Ne.symm h)
      simp [dictInsert, hb, List.lookup, hb', ih]

theorem lookup_dictInsert_ne (d : List (String × α)) {k k' : String} (v : α)
    (h : k' ≠ k) : (dictInsert d k v).lookup k' = d.lookup k' := by
  induction d with
  | nil => simp [dictInsert, List.lookup, beq_eq_false_iff_ne.mpr h]
  | cons p d ih =>
    by_cases hp : p.1 = k
    · subst hp
      simp [dictInsert, List.lookup, beq_eq_false_iff_ne.mpr h, ih]
    · have hb : (p.1 == k) = false := beq_eq_false_iff_ne.mpr hp
      by_cases hk : k' = p.1
      · simp [dictInsert, hb, List.lookup, hk]
      · have hb' : (k' == p.1) = false := beq_eq_false_iff_ne.mpr hk
        simp [dictInsert, hb, List.lookup, hb', ih]

theorem mem_keys_of_lookup_some (m : List (String × α)) (k : String) (v : α)
    (h : m.lookup k = some v) : k ∈ m.map Prod.fst := by
  induction m with
  | nil => simp [List.lookup] at h
  | cons p m ih =>
    by_cases hk : k = p.1
    · simp [hk]
    · have hb : (k == p.1) = false := beq_eq_false_iff_ne.mpr hk
      simp only [List.lookup, hb] at h
      simpa using Or.inr (ih h)

theorem lookup_dictUpdate_of_none (m : List (String × α)) :
    ∀ (d : List (String × α)) (k : String), m.lookup k = none →
      (dictUpdate d m).lookup k = d.lookup k := by
  induction m with
  | nil => intro d k _; simp [dictUpdate]
  | cons p m ih =>
    intro d k h
    have hne : k ≠ p.1 := by
      intro hk
      simp [List.lookup, hk] at h
    have hb : (k == p.1) = false := beq_eq_false_iff_ne.mpr hne
    simp only [List.lookup, hb] at h
    show (dictUpdate (dictInsert d p.1 p.2) m).lookup k = d.lookup k
    rw [ih _ k h, lookup_dictInsert_ne _ _ hne]

theorem lookup_dictUpdate_of_some (m : List (String × α)) :
    ∀ (d : List (String × α)) (k : String) (v : α),
      (m.map Prod.fst).Nodup → m.lookup k = some v →
      (dictUpdate d m).lookup k = some v := by
  induction m with
  | nil => intro d k v _ h; simp [List.lookup] at h
  | cons p m ih =>
    intro d k v hnd h
    by_cases hk : k = p.1
    · have hv : v = p.2 := by
        simp [List.lookup, hk] at h
        exact h.symm
      have hnone : m.lookup k = none := by
        rcases hm : m.lookup k with _ | w
        · rfl
        · exact absurd (by simpa [hk] using mem_keys_of_lookup_some m k w hm)
            (by simpa using (List.nodup_cons.mp hnd).1)
      show (dictUpdate (dictInsert d p.1 p.2) m).lookup k = some v
      rw [lookup_dictUpdate_of_none m _ k hnone, hk, hv,
        lookup_dictInsert_self]
    · have hb : (k == p.1) = false := beq_eq_false_iff_ne.mpr hk
      simp only [List.lookup, hb] at h
      exact ih _ k v (List.nodup_cons.mp hnd).2 h

/-- C2: `extract` returns the file properties overlaid with the front-matter
entries — a front-matter key (unique keys, as a parsed YAML mapping has)
wins a collision, any other key keeps its file-property value — and when
front-matter parsing raises or yields no mapping the file properties are
returned alone (never raising, since `extract` is total). -/
theorem extract_merges_frontmatter (props m : List (String × α)) (c : List Char)
    (k : String) (hnd : (m.map Prod.fst).Nodup) :
    extract props (.error ()) = props ∧
    extract props (.ok (([] : List (String × α)), c)) = props ∧
    (∀ v, m.lookup k = some v →
      (extract props (.ok (m, c))).lookup k = some v) ∧
    (m.lookup k = none →
      (extract props (.ok (m, c))).lookup k = props.lookup k) := by
  refine ⟨rfl, rfl, ?_, ?_⟩
  · intro v hv
    cases m with
    | nil => simp [List.lookup] at hv
    | cons p m' =>
      simpa [extract, extract_frontmatter] using
        lookup_dictUpdate_of_some (p :: m') props k v hnd hv
  · intro hnone
    cases m with
    | nil => simp [extract, extract_frontmatter]
    | cons p m' =>
      simpa [extract, extract_frontmatter] using
        lookup_dictUpdate_of_none (p :: m') props k hnone

/-- C2 witness: on front matter `{title: "T", author: "A"}` the merged
metadata has `title = "T"` (overriding the colliding file property) and
keeps the `filename` file property. -/
theorem extract_merges_frontmatter_witness :
    (extract [("filename", "a.md"), ("title", "old")]
        (.ok ([("title", "T"), ("author", "A")], []))).lookup "title" = some "T" ∧
    (extract [("filename", "a.md"), ("title", "old")]
        (.ok ([("title", "T"), ("author", "A")], []))).lookup "filename" =
      some "a.md" := by
  have h := extract_merges_frontmatter
    [("filename", "a.md"), ("title", "old")]
    [("title", "T"), ("author", "A")] [] "title" (by decide)
  have h2 := extract_merges_frontmatter
    [("filename", "a.md"), ("title", "old")]
    [("title", "T"), ("author", "A")] [] "filename" (by decide)
  exact ⟨h.2.2.1 "T" (by decide), by rw [h2.2.2.2 (by decide)]; decide⟩

/-- C7: with the front-matter parser modelled from the spec, `get_content`
returns the raw text unchanged when no front-matter block is present, and
also when YAML parsing of a present block raises (the `except` branch
re-reads the file); when a block parses, the content is the text with the
block removed. -/
theorem get_content_strips_frontmatter
    (yaml : List Char → Except Unit (List (String × α))) (text fm rest : List Char)
    (m : List (String × α)) :
    (splitFrontBlock text = none → get_content (fmLoad yaml text) text = text) ∧
    (splitFrontBlock text = some (fm, rest) → yaml fm = .error () →
      get_content (fmLoad yaml text) text = text) ∧
    (splitFrontBlock text = some (fm, rest) → yaml fm = .ok m →
      get_content (fmLoad yaml text) text = rest) := by
  refine ⟨fun h => ?_, fun h hy => ?_, fun h hy => ?_⟩
  · simp [get_content, fmLoad, h]
  · simp [get_content, fmLoad, h, hy]
  · simp [get_content, fmLoad, h, hy]

/-- C7 witness: a file with a parseable block loses exactly the block, a
file without front matter and a file whose block's YAML raises keep their
raw text (including the trailing newline). -/
theorem get_content_strips_frontmatter_witness :
    get_content (fmLoad (α := String) (fun _ => .ok [("title", "T")])
      ("---\ntitle: T\n---\nbody\n".toList)) ("---\ntitle: T\n---\nbody\n".toList) =
      "body\n".toList ∧
    get_content (fmLoad (α := String) (fun _ => .ok [("title", "T")])
      ("hello\nworld\n".toList)) ("hello\nworld\n".toList) = "hello\nworld\n".toList ∧
    get_content (fmLoad (α := String) (fun _ => .error ())
      ("---\n:bad\n---\nbody\n".toList)) ("---\n:bad\n---\nbody\n".toList) =
      "---\n:bad\n---\nbody\n".toList := by
  refine ⟨?_, ?_, ?_⟩
  · exact (get_content_strips_frontmatter (fun _ => .ok [("title", "T")])
      ("---\ntitle: T\n---\nbody\n".toList) ("title: T".toList) ("body\n".toList)
      [("title", "T")]).2.2 (by decide) rfl
  · exact (get_content_strips_frontmatter (fun _ => .ok [("title", "T")])
      ("hello\nworld\n".toList) [] [] [("title", "T")]).1 (by decide)
  · exact (get_content_strips_frontmatter (fun _ => .error ())
      ("---\n:bad\n---\nbody\n".toList) (":bad".toList) ("body\n".toList)
      []).2.1 (by decide) rfl

/-- C9: on an unchanged file, each accessor returns, from every reachable
instance state, exactly the value it returns on a fresh instance, and leaves
the state reachable — so repeated calls to `extract`/`get_content`/
`get_title`, in any order, all return identical results. -/
theorem extractor_accessors_idempotent (L : Except Unit (Post α))
    (raw stem : List Char) (props : List (String × α)) (st : Option (Post α))
    (h : reach L st) :
    ((get_content_st L raw st).1 = (get_content_st L raw none).1 ∧
      reach L (get_content_st L raw st).2) ∧
    ((extract_st L props st).1 = (extract_st L props none).1 ∧
      reach L (extract_st L props st).2) ∧
    ((get_title_st L raw stem st).1 = (get_title_st L raw stem none).1 ∧
      reach L (get_title_st L raw stem st).2) := by
  rcases h with h | ⟨p, hL, hst⟩
  · subst h
    refine ⟨⟨rfl, ?_⟩, ⟨rfl, ?_⟩, ⟨rfl, ?_⟩⟩
    · cases hL : L with
      | ok p => exact Or.inr ⟨p, rfl, by simp [get_content_st, hL]⟩
      | error e => exact Or.inl (by simp [get_content_st, hL])
    · cases hL : L with
      | ok p => exact Or.inr ⟨p, rfl, by simp [extract_st, hL]⟩
      | error e => exact Or.inl (by simp [extract_st, hL])
    · cases hL : L with
      | ok p => exact Or.inr ⟨p, rfl, by simp [get_title_st, get_content_st, hL]⟩
      | error e => exact Or.inl (by simp [get_title_st, get_content_st, hL])
  · subst hst hL
    exact ⟨⟨rfl, Or.inr ⟨p, rfl, rfl⟩⟩,
      ⟨rfl, Or.inr ⟨p, rfl, by simp [extract_st]⟩⟩,
      ⟨rfl, Or.inr ⟨p, rfl, rfl⟩⟩⟩

/-- C9 witness: with a cached post (the state after one successful load),
`get_content` still returns the fresh-instance result. -/
theorem extractor_accessors_idempotent_witness :
    (get_content_st (α := String) (.ok ([("t", "v")], "body".toList))
        ("raw".toList) (some ([("t", "v")], "body".toList))).1 =
      (get_content_st (α := String) (.ok ([("t", "v")], "body".toList))
        ("raw".toList) none).1 := by
  exact (extractor_accessors_idempotent (.ok ([("t", "v")], "body".toList))
    ("raw".toList) ("s".toList) [] (some ([("t", "v")], "body".toList))
    (Or.inr ⟨_, rfl, rfl⟩)).1.1

theorem run_step_measures (acc : Nat × Nat × List (List Ev)) (ops : FileOps α) :
    (run_step acc ops).2.2.length = acc.2.2.length + 1 ∧
    (run_step acc ops).1 + (run_step acc ops).2.1 = acc.1 + acc.2.1 + 1 := by
  unfold run_step
  by_cases hr : (process_file ops).1 <;> simp [hr] <;> omega

theorem run_files_aux (files : List (FileOps α)) :
    ∀ acc : Nat × Nat × List (List Ev),
      (files.foldl run_step acc).2.2.length = acc.2.2.length + files.length ∧
      (files.foldl run_step acc).1 + (files.foldl run_step acc).2.1 =
        acc.1 + acc.2.1 + files.length := by
  induction files with
  | nil => intro acc; simp
  | cons ops files ih =>
    intro acc
    have hstep := run_step_measures acc ops
    have h := ih (run_step acc ops)
    refine ⟨?_, ?_⟩
    · simp only [List.foldl_cons, List.length_cons]
      omega
    · simp only [List.foldl_cons, List.length_cons]
      omega

theorem process_file_cases (ops : FileOps α) :
    process_file ops = (false, []) ∨
    process_file ops = (false, [Ev.extracted, Ev.exported none]) ∨
    process_file ops = (false, [Ev.extracted, Ev.exported (some false)]) ∨
    process_file ops =
      (false, [Ev.extracted, Ev.exported (some true), Ev.archived none]) ∨
    ∃ b, process_file ops =
      (true, [Ev.extracted, Ev.exported (some true), Ev.archived (some b)]) := by
  obtain ⟨cs, ct, mt, tl, ex, mv⟩ := ops
  cases cs with
  | error e => exact Or.inl rfl
  | ok u =>
    cases ct with
    | error e => exact Or.inl rfl
    | ok c =>
      cases mt with
      | error e => exact Or.inl rfl
      | ok m =>
        cases tl with
        | error e => exact Or.inl rfl
        | ok t =>
          cases hx : ex t c m with
          | error e => right; left; simp [process_file, hx]
          | ok b =>
            cases b with
            | false => right; right; left; simp [process_file, hx]
            | true =>
              cases mv with
              | error e => right; right; right; left; simp [process_file, hx]
              | ok b' =>
                right; right; right; right
                exact ⟨b', by simp [process_file, hx]⟩

/-- C3: `process_file` catches every collaborator exception and returns a
boolean (it is a total function into `Bool × _`); an archival event only ever
follows a successful extraction and an export that returned `true`, in that
order; a `false` export yields failure with no archival; overall success
holds exactly when the full pipeline ran; and at the `run` level every file
of the list is processed (one trace each, success and failure tallies
summing to the number of files), so one file's failure never stops the
rest. -/
theorem process_file_boundary (ops : FileOps α) (files : List (FileOps α)) :
    (∀ r, Ev.archived r ∈ (process_file ops).2 →
      (process_file ops).2 =
        [Ev.extracted, Ev.exported (some true), Ev.archived r]) ∧
    ((process_file ops).1 = true ↔
      ∃ b, (process_file ops).2 =
        [Ev.extracted, Ev.exported (some true), Ev.archived (some b)]) ∧
    (Ev.exported (some false) ∈ (process_file ops).2 →
      (process_file ops).1 = false ∧
        ∀ r, Ev.archived r ∉ (process_file ops).2) ∧
    (run_files files).2.2.length = files.length ∧
    (run_files files).1 + (run_files files).2.1 = files.length := by
  have haux := run_files_aux files (0, 0, [])
  refine ⟨?_, ?_, ?_, by simpa [run_files] using haux.1,
    by simpa [run_files] using haux.2⟩ <;>
    rcases process_file_cases ops with h | h | h | h | ⟨b, h⟩ <;>
      simp [h]

/-- C3 witness: a fully successful pipeline produces the archival event after
the successful export, and reports success exactly as the theorem's
equivalence states. -/
theorem process_file_boundary_witness :
    (process_file (⟨.ok (), .ok ("c".toList), .ok [("k", "v")], .ok ("t".toList),
        fun _ _ _ => .ok true, .ok true⟩ : FileOps String)).2 =
      [Ev.extracted, Ev.exported (some true), Ev.archived (some true)] := by
  exact (process_file_boundary
    (⟨.ok (), .ok ("c".toList), .ok [("k", "v")], .ok ("t".toList),
      fun _ _ _ => .ok true, .ok true⟩ : FileOps String) []).1
    (some true) (by decide)

/-- C4: a validation failure (a `false` result, or a raise inside
`validate_configuration`) makes `run` end in a raised error with the scanner
never invoked and no file processed, for every possible scanner behaviour;
with validation passing, a scan that finds zero files ends the run normally
with empty tallies.  (In the code, `validate_configuration` is called at a
single site, before the scan — the model takes that one call's outcome as
`validate`.) -/
theorem run_validation_gate (scan : Except Unit (List (FileOps α))) :
    run (.ok false) scan = (.error (), false) ∧
    run (.error ()) scan = (.error (), false) ∧
    run (.ok true) (.ok ([] : List (FileOps α))) = (.ok (0, 0, []), true) :=
  ⟨rfl, rfl, rfl⟩

/-- C10: when export returns `true`, `process_file` ignores the archival
move's boolean — a vanished source file makes `move_file` return `false`,
yet the file's processing returns `true` and is tallied as successful. -/
theorem export_success_ignores_move_result (c t : List Char)
    (m : List (String × α)) (u o : Bool) :
    move_file false u o = false ∧
    process_file (⟨.ok (), .ok c, .ok m, .ok t, fun _ _ _ => .ok true,
        .ok (move_file false u o)⟩ : FileOps α) =
      (true, [Ev.extracted, Ev.exported (some true), Ev.archived (some false)]) ∧
    run_files [(⟨.ok (), .ok c, .ok m, .ok t, fun _ _ _ => .ok true,
        .ok (move_file false u o)⟩ : FileOps α)] =
      (1, 0, [[Ev.extracted, Ev.exported (some true), Ev.archived (some false)]]) := by
  refine ⟨rfl, rfl, ?_⟩
  simp [run_files, run_step, process_file, move_file]

theorem replaceChar_append (c : Char) (r : List Char) (a b : List Char) :
    replaceChar c r (a ++ b) = replaceChar c r a ++ replaceChar c r b := by
  induction a with
  | nil => rfl
  | cons x xs ih => simp [replaceChar, ih]

theorem escape_cons (x : Char) (xs : List Char) :
    escape_for_applescript (x :: xs) = escChar x ++ escape_for_applescript xs := by
  unfold escape_for_applescript escChar
  rw [show replaceChar '"' ['\\', '"'] (x :: xs) =
    (if x = '"' then ['\\', '"'] else [x]) ++ replaceChar '"' ['\\', '"'] xs
    from rfl]
  rw [replaceChar_append]
  congr 1
  by_cases hq : x = '"'
  · subst hq
    rw [if_pos rfl, if_pos rfl]
    decide
  · by_cases hn : x = '\n'
    · subst hn
      rw [if_neg hq, if_neg hq, if_pos rfl]
      decide
    · rw [if_neg hq, if_neg hq, if_neg hn]
      simp [replaceChar, hn]

theorem escape_eq_flatMap (t : List Char) :
    escape_for_applescript t = t.flatMap escChar := by
  induction t with
  | nil => rfl
  | cons x xs ih => rw [escape_cons, ih, List.flatMap_cons]

theorem newline_not_mem_escape (s : List Char) :
    '\n' ∉ escape_for_applescript s := by
  rw [escape_eq_flatMap]
  intro hmem
  obtain ⟨c, hcs, hc⟩ := List.mem_flatMap.mp hmem
  unfold escChar at hc
  by_cases hq : c = '"'
  · rw [if_pos hq] at hc
    exact absurd hc (by decide)
  · rw [if_neg hq] at hc
    by_cases hn : c = '\n'
    · rw [if_pos hn] at hc
      exact absurd hc (by decide)
    · rw [if_neg hn] at hc
      exact hn (List.mem_singleton.mp hc).symm

/-- C5: the note-creation AppleScript equals the fixed template with each
interpolated string — the target folder name (twice), the title, and the
full note body — replaced by its claim-escaped form: every `"` becomes
`\"`, every newline the two characters `\` `n`, all other characters kept;
consequently no raw newline survives in any interpolated string. -/
theorem create_note_script_escapes (mdToHtml : List Char → List Char)
    (fmtMeta : List (String × α) → List Char) (title content : List Char)
    (metadata : Option (List (String × α))) (folder : Option (List Char)) :
    create_note_script mdToHtml fmtMeta title content metadata folder =
      scriptSeg1 ++ (target_folder folder).flatMap escChar ++ scriptSeg2 ++
        (target_folder folder).flatMap escChar ++ scriptSeg3 ++
        title.flatMap escChar ++ scriptSeg4 ++
        (build_full_content mdToHtml fmtMeta content metadata).flatMap escChar ++
        scriptSeg5 ∧
    '\n' ∉ escape_for_applescript title ∧
    '\n' ∉ escape_for_applescript
      (build_full_content mdToHtml fmtMeta content metadata) ∧
    '\n' ∉ escape_for_applescript (target_folder folder) := by
  refine ⟨?_, newline_not_mem_escape _, newline_not_mem_escape _,
    newline_not_mem_escape _⟩
  simp only [create_note_script, escape_eq_flatMap]

/-- C8: `create_note` takes an optional folder name; the note is placed in
the named folder, which exists at the destination after the call — created
by the same call when it did not exist before — and an omitted (or empty)
folder name falls back to the default `"Notes"` folder. -/
theorem create_note_optional_folder (folders : List (List Char))
    (folder : Option (List Char)) :
    (create_note_effect folders folder).2 = target_folder folder ∧
    (create_note_effect folders folder).2 ∈ (create_note_effect folders folder).1 ∧
    (create_note_effect folders folder).1 =
      (if target_folder folder ∈ folders then folders
        else folders ++ [target_folder folder]) ∧
    target_folder none = "Notes".toList ∧
    target_folder (some []) = "Notes".toList := by
  refine ⟨?_, ?_, ?_, by decide, by decide⟩ <;>
    · unfold create_note_effect
      by_cases h : target_folder folder ∈ folders <;> simp [h]

theorem splitNl_ne_nil (l : List Char) : splitNl l ≠ [] := by
  cases l with
  | nil => simp [splitNl]
  | cons c cs =>
    rcases h : splitNl cs with _ | ⟨a, b⟩
    · simp [splitNl, h]
    · simp only [splitNl, h]
      split <;> simp

theorem dropWhile_head_false {p : Char → Bool} {l : List Char} :
    ∀ {x : Char} {xs : List Char}, l.dropWhile p = x :: xs → p x = false := by
  induction l with
  | nil => intro x xs h; simp [List.dropWhile] at h
  | cons a l ih =>
    intro x xs h
    by_cases hp : p a
    · rw [List.dropWhile_cons_of_pos hp] at h
      exact ih h
    · rw [List.dropWhile_cons_of_neg hp] at h
      cases h
      exact Bool.eq_false_iff.mpr hp

theorem all_space_of_pstrip_eq_nil {l : List Char} (h : pstrip l = []) :
    ∀ c ∈ l, pyIsSpace c = true := by
  intro c hc
  unfold pstrip rstrip at h
  have h1 : ∀ x ∈ (lstrip l).reverse, pyIsSpace x = true :=
    List.dropWhile_eq_nil_iff.mp (List.reverse_eq_nil_iff.mp h)
  have h2 : ∀ x ∈ lstrip l, pyIsSpace x = true := by
    intro x hx
    exact h1 x (List.mem_reverse.mpr hx)
  rcases List.mem_append.mp
      (by rw [List.takeWhile_append_dropWhile]; exact hc :
        c ∈ l.takeWhile pyIsSpace ++ l.dropWhile pyIsSpace) with hmem | hmem
  · exact List.mem_takeWhile_imp hmem
  · exact h2 c hmem

theorem rstrip_isPrefix (l : List Char) : rstrip l <+: l := by
  have hs : l.reverse.dropWhile pyIsSpace <:+ l.reverse :=
    List.dropWhile_suffix _
  have := List.reverse_prefix.mpr hs
  simpa [rstrip] using this

theorem head_pstrip_not_space {content : List Char} {x : Char} {cs : List Char}
    (hpc : pstrip content = x :: cs) : pyIsSpace x = false := by
  obtain ⟨t, ht⟩ := rstrip_isPrefix (lstrip content)
  rw [show rstrip (lstrip content) = pstrip content from rfl, hpc] at ht
  have hd : List.dropWhile pyIsSpace content = x :: (cs ++ t) := by
    rw [show List.dropWhile pyIsSpace content = lstrip content from rfl, ← ht]
    simp
  exact dropWhile_head_false hd

/-- C6 counterexample: on body `"# T\nbody\n"` with title `"T"`, excluding
the heading line (and no blank lines follow it) leaves `"body\n"`, but the
code — which works on the whitespace-trimmed body — returns `"body"`. -/
theorem remove_title_header_claim_counterexample :
    remove_title_header ("# T\nbody\n".toList) ("T".toList) = "body".toList ∧
    spec_remove_title_claim ("# T\nbody\n".toList) ("T".toList) = "body\n".toList ∧
    remove_title_header ("# T\nbody\n".toList) ("T".toList) ≠
      spec_remove_title_claim ("# T\nbody\n".toList) ("T".toList) := by
  refine ⟨by decide, by decide, by decide⟩

/-- C6 (amended): `_remove_title_header` applies the claim's exclusion to
the *whitespace-trimmed* body — when the first visible line is a level-1
heading whose trimmed text equals the (non-empty) title, the result is the
trimmed body minus that heading line and the immediately following blank
lines (so surrounding whitespace is dropped too); otherwise the body is
returned completely unchanged. -/
theorem remove_title_header_eq_amended (content title : List Char) :
    remove_title_header content title =
      (if content.isEmpty || title.isEmpty then content
        else
          match excise_scan title (splitNl (pstrip content)) with
          | some ls => joinNl ls
          | none => content) := by
  unfold remove_title_header
  by_cases hg : (content.isEmpty || title.isEmpty) = true
  · simp [hg]
  · rw [if_neg hg, if_neg hg]
    rcases hpc : pstrip content with _ | ⟨x, cs⟩
    · rfl
    · have hx : pyIsSpace x = false := head_pstrip_not_space hpc
      have hxn : x ≠ '\n' := by
        intro hxe
        rw [hxe] at hx
        simp [pyIsSpace] at hx
      rcases hcs : splitNl cs with _ | ⟨l0, ls0⟩
      · exact absurd hcs (splitNl_ne_nil cs)
      · have hsplit : splitNl (x :: cs) = (x :: l0) :: ls0 := by
          simp [splitNl, hcs, hxn]
        have hline : ((pstrip (x :: l0)).isEmpty) = false := by
          rcases hps : pstrip (x :: l0) with _ | ⟨y, ys⟩
          · exact absurd (all_space_of_pstrip_eq_nil hps x (by simp))
              (by simp [hx])
          · simp
        rw [hsplit]
        by_cases hmatch : is_title_heading title (x :: l0) = true
        · simp [rth_scan, excise_scan, hline, hmatch]
        · simp [rth_scan, excise_scan, hline, hmatch]

end Md2Note
